import Mathlib

/-!
Verification development for the `active-handles` handle-resolution engine
(`src/index.js`).  The JavaScript source is shallowly embedded: JS values that
the engine inspects are modelled by `JsVal`, the mutable per-call state of
`resolveHandle` by `St`, thrown `TypeError`s by `Except`, and the external
collaborators (the `cardinal` source renderer and the `function-origin`
location reflection) by oracle fields of an `Env`.  The `_idleNext` chain is
modelled as a finite store of nodes (`Env.nodes`) with links given by indices;
the `for` loop of `resolveHandle` walks it with a fuel parameter, and the fuel
`env.nodes.length + 1` is proved sufficient.
-/

namespace ActiveHandles

/-- A JavaScript value as far as the engine inspects values: `undefined`,
numbers, strings, and function references (compared by identity, modelled by a
numeric id). -/
inductive JsVal where
  | undefined
  | num (n : Int)
  | str (s : String)
  | fnv (id : Nat)
deriving DecidableEq

/-- Models `typeof x === 'function'` (`isFunction` in the source). -/
def isFunctionV : JsVal → Bool
  | .fnv _ => true
  | _ => false

/-- JS truthiness of a modelled value (`if (handle._handle.fd)` etc.). -/
def truthy : JsVal → Bool
  | .undefined => false
  | .num n => n != 0
  | .str s => s != ""
  | .fnv _ => true

/-- The location record returned by the external `function-origin` reflection:
file, (zero-based) line, column, and the runtime-inferred name of an anonymous
function. -/
structure Location where
  file : String
  line : Int
  column : Int
  inferredName : Option String
deriving DecidableEq

/-- Reflection data of one function reference: its `name` property (empty
string for anonymous functions), its `toString()` source text, and what the
external `getFunctionLocation` returns for it (`none` when the runtime cannot
supply a location). -/
structure FnData where
  fnName : String
  src : String
  location : Option Location
deriving DecidableEq

/-- One raw handle / chain-node record.  `idleNext` is the `_idleNext` link
(an index into the node store, `none` for a null link); `onTimeout` is `some v`
exactly when the record has an own `_onTimeout` property, holding value `v`;
`handleRec` is the nested `_handle` socket record (`none` when absent/falsy),
an ordered list of own enumerable fields. -/
structure Node where
  idleNext : Option Nat := none
  repeatF : JsVal := .undefined
  wrappedCallback : JsVal := .undefined
  onTimeout : Option JsVal := none
  idleTimeout : JsVal := .undefined
  handleRec : Option (List (String × JsVal)) := none
deriving DecidableEq

/-- The environment of one resolution pass: the finite store of handle/chain
records, the function-reflection oracle, and the external source renderer
(`cardinal.highlight`; `none` models a thrown rendering error). -/
structure Env where
  nodes : List Node
  fns : Nat → FnData
  render : String → Option String

/-- Dereference a node link. -/
def Env.getNode (env : Env) (i : Nat) : Option Node :=
  env.nodes.get? i

/-- A thrown JS error (`TypeError` from a property access/assignment on
`undefined`), plus the fuel-exhaustion marker of the modelled chain walk,
which the source's unbounded `for` loop of course never produces and which is
proved unreachable below. -/
inductive JsErr where
  | typeError
  | outOfFuel
deriving DecidableEq

/-- The info record built by `functionInfo` and later mutated in place by
`resolveHandle` (`msecs`, `type`) and `addHandleFn` (`fd`, `type`).  The
source's `handle` field is omitted: `addInfo` calls `functionInfo(fn)` with no
second argument, so it is always `undefined`. -/
structure Info where
  fnId : JsVal
  name : String
  source : String
  highlighted : String
  location : Option Location
  msecs : Option JsVal := none
  type : Option String := none
  fd : Option JsVal := none
deriving DecidableEq

deriving instance DecidableEq for Except

/-- Models `highlightSource`: try the renderer, fall back to the input text on
a rendering error. -/
def highlightSource (render : String → Option String) (s : String) : String :=
  match render s with
  | some r => r
  | none => s

/-- Models `functionInfo(fn)`.  For an anonymous function (`fn.name` empty)
the source reads `location.inferredName` without a null guard, so a missing
location throws a `TypeError` there.  Reflection (`fn.toString()`,
`getFunctionLocation`) on a non-function value is outside the engine's
interface; for `undefined` it genuinely throws, and the model maps every
non-function argument to a `TypeError` (no claim exercises the other cases). -/
def functionInfo (env : Env) (v : JsVal) : Except JsErr Info :=
  match v with
  | .fnv id =>
    let d := env.fns id
    let location := d.location.map fun l => { l with line := l.line + 1 }
    if d.fnName = "" then
      match location with
      | none => .error .typeError
      | some loc =>
        let name :=
          match loc.inferredName with
          | some n => if n ≠ "" then n else "__unknown_function_name__"
          | none => "__unknown_function_name__"
        .ok { fnId := v, name := name, source := d.src,
              highlighted := highlightSource env.render (name ++ " = " ++ d.src),
              location := some loc }
    else
      .ok { fnId := v, name := d.fnName, source := d.src,
            highlighted := highlightSource env.render d.src,
            location := location }
  | _ => .error .typeError

/-- The mutable local state of one `resolveHandle` call: the `visited` node
list of the cycle guard, the `resolvedFns` identity-dedup list, and the
`resolved` output list. -/
structure St where
  visited : List Nat := []
  resolvedFns : List JsVal := []
  resolved : List Info := []
deriving DecidableEq

/-- Models `addInfo(fn)`: return `undefined` (here `none`) when `fn` was
already resolved during this call, otherwise push `fn`, build its info record
and push and return it. -/
def addInfo (env : Env) (st : St) (v : JsVal) : Except JsErr (St × Option Info) :=
  if v ∈ st.resolvedFns then .ok (st, none)
  else
    let st1 := { st with resolvedFns := st.resolvedFns ++ [v] }
    match functionInfo env v with
    | .error e => .error e
    | .ok info => .ok ({ st1 with resolved := st1.resolved ++ [info] }, some info)

/-- Apply `f` to the last element of a list (used to model in-place mutation
of the info record just pushed by `addInfo`). -/
def setLast (f : Info → Info) : List Info → List Info
  | [] => []
  | [a] => [f a]
  | a :: rest => a :: setLast f rest

/-- Mutation of the info record `addInfo` just returned: it is the last
element of `resolved`. -/
def mutateLast (st : St) (f : Info → Info) : St :=
  { st with resolved := setLast f st.resolved }

/-- The body of the chain loop of `resolveHandle` for one (fresh) node: skip
non-timer shapes, select the callback with repeat/wrapped/`_onTimeout`
precedence, resolve it, then assign `msecs` and `type` on the returned record
(a `TypeError` when `addInfo` returned `undefined` for a duplicate). -/
def processTimerNode (env : Env) (st : St) (node : Node) : Except JsErr St :=
  let repeatIsFn := isFunctionV node.repeatF
  let hasWrappedCallback := isFunctionV node.wrappedCallback
  if !repeatIsFn && !hasWrappedCallback && node.onTimeout.isNone then .ok st
  else
    let fn := if repeatIsFn then node.repeatF
              else if hasWrappedCallback then node.wrappedCallback
              else node.onTimeout.getD .undefined
    match addInfo env st fn with
    | .error e => .error e
    | .ok (_, none) => .error .typeError
    | .ok (st1, some _) =>
      .ok (mutateLast st1 fun i =>
        { i with msecs := some node.idleTimeout,
                 type := some (if hasWrappedCallback || repeatIsFn
                               then "setInterval" else "setTimeout") })

/-- The `for (var next = ...; !!next && !wasVisited(next); next = next._idleNext)`
loop, with a fuel parameter standing in for the unbounded JS loop.  A dangling
node index ends the walk; it cannot arise from JS object references. -/
def walk (env : Env) : Nat → St → Option Nat → Except JsErr St
  | _, st, none => .ok st
  | 0, st, some i =>
    if i ∈ st.visited then .ok st
    else
      match env.getNode i with
      | none => .ok st
      | some _ => .error .outOfFuel
  | fuel + 1, st, some i =>
    if i ∈ st.visited then .ok st
    else
      match env.getNode i with
      | none => .ok st
      | some node =>
        match processTimerNode env { st with visited := st.visited ++ [i] } node with
        | .error e => .error e
        | .ok st1 => walk env fuel st1 node.idleNext

/-- Models `addHandleFn(key)` over the nested socket record `sock`: resolve a
callable field; when the record's `fd` is truthy, assign it on the returned
info record (a `TypeError` when `addInfo` returned `undefined`) and refine
`type` for `onconnection`/`onread`.  In the `default` branch the source writes
`addInfo.type = 'unknown'` on the `addInfo` function object itself, which has
no effect on the resolved record; the model therefore leaves the state
unchanged there. -/
def addHandleFn (env : Env) (sock : List (String × JsVal)) (st : St)
    (key : String) : Except JsErr St :=
  let value := (sock.lookup key).getD .undefined
  if !isFunctionV value then .ok st
  else
    match addInfo env st value with
    | .error e => .error e
    | .ok (st1, optInfo) =>
      let fd := (sock.lookup "fd").getD .undefined
      if truthy fd then
        match optInfo with
        | none => .error .typeError
        | some _ =>
          let st2 := mutateLast st1 fun i => { i with fd := some fd }
          if key = "onconnection" then
            .ok (mutateLast st2 fun i => { i with type := some "net connection" })
          else if key = "onread" then
            .ok (mutateLast st2 fun i => { i with type := some "net client connection" })
          else
            .ok st2
      else .ok st1

/-- Models `Object.keys(handle._handle).forEach(addHandleFn)`. -/
def processSocketKeys (env : Env) (sock : List (String × JsVal)) (st : St) :
    List String → Except JsErr St
  | [] => .ok st
  | k :: ks =>
    match addHandleFn env sock st k with
    | .error e => .error e
    | .ok st1 => processSocketKeys env sock st1 ks

/-- The socket phase of `resolveHandle`. -/
def processSocket (env : Env) (sock : List (String × JsVal)) (st : St) :
    Except JsErr St :=
  processSocketKeys env sock st (sock.map Prod.fst)

/-- `resolveHandle(handle)` returning the full local state, parametrised by
the chain-walk fuel. -/
def resolveHandleStFuel (env : Env) (fuel : Nat) (hid : Nat) : Except JsErr St :=
  match env.getNode hid with
  | none => .error .typeError
  | some handle =>
    match walk env fuel {} handle.idleNext with
    | .error e => .error e
    | .ok st1 =>
      match handle.handleRec with
      | some sock => processSocket env sock st1
      | none => .ok st1

/-- `resolveHandle(handle)` state, at the fuel proved sufficient below. -/
def resolveHandleSt (env : Env) (hid : Nat) : Except JsErr St :=
  resolveHandleStFuel env (env.nodes.length + 1) hid

/-- Models `resolveHandle(handle)`: the `resolved` list of the final state. -/
def resolveHandle (env : Env) (hid : Nat) : Except JsErr (List Info) :=
  (resolveHandleSt env hid).map St.resolved

/-- The accumulating loop of `resolveHandles` (`resolved.forEach(pushHandle)`
per handle). -/
def resolveHandlesAux (env : Env) (acc : List Info) :
    List Nat → Except JsErr (List Info)
  | [] => .ok acc
  | h :: hs =>
    match resolveHandle env h with
    | .error e => .error e
    | .ok l => resolveHandlesAux env (acc ++ l) hs

/-- Models `resolveHandles(handles)`. -/
def resolveHandles (env : Env) (hids : List Nat) : Except JsErr (List Info) :=
  resolveHandlesAux env [] hids

/-- Models the exported `activeHandles()` entry point: short-circuit on an
empty live-handle list, else resolve them all. -/
def activeHandles (env : Env) (hids : List Nat) : Except JsErr (List Info) :=
  if hids.isEmpty then .ok [] else resolveHandles env hids

/-- Models `String.prototype.split('.')` on the character list of a string. -/
def splitOnDot : List Char → List (List Char)
  | [] => [[]]
  | c :: rest =>
    if c = '.' then [] :: splitOnDot rest
    else
      match splitOnDot rest with
      | [] => [[c]]
      | g :: gs => (c :: g) :: gs

/-- The integer-string fragment of JS `Number` coercion, as exercised by the
`digits[i] < k` comparisons of `versionGreaterEqualOneSixTwo` on version-digit
groups: an empty string coerces to `0`, a digit string to its value, anything
else to `NaN` (here `none`). -/
def jsToNum (s : List Char) : Option Int :=
  if s = [] then some 0
  else if s.all Char.isDigit then
    some (s.foldl (fun a c => a * 10 + (Int.ofNat (c.toNat - Char.toNat '0'))) 0)
  else none

/-- Models the JS comparison `s < k` between a string and a number: the string
is coerced with `Number`, and any comparison against `NaN` is `false`. -/
def jsNumLt (s : List Char) (k : Int) : Bool :=
  match jsToNum s with
  | some n => n < k
  | none => false

/-- Models `versionGreaterEqualOneSixTwo(v)` verbatim: split `v.slice(1)` on
dots, demand exactly three groups, and compare each group separately against
the corresponding component of `1.6.2`. -/
def versionGreaterEqualOneSixTwo (v : String) : Bool :=
  let digits := splitOnDot (v.toList.drop 1)
  if digits.length ≠ 3 then false
  else if jsNumLt (digits.getD 0 []) 1 || jsNumLt (digits.getD 1 []) 6
          || jsNumLt (digits.getD 2 []) 2 then false
  else true

/-- The `timers.setInterval` slot: either the runtime's original function or
a hook wrapping whatever was installed before. -/
inductive SetIntervalImpl where
  | original
  | hooked (prev : SetIntervalImpl)
deriving DecidableEq

/-- The process-wide `timers` table as far as the shim touches it. -/
structure Timers where
  setInterval : SetIntervalImpl
deriving DecidableEq

/-- Models `hookSetInterval()`: a no-op when the version check reports at
least 1.6.2, otherwise replace `timers.setInterval` with the hook. -/
def hookSetInterval (version : String) (timers : Timers) : Timers :=
  if versionGreaterEqualOneSixTwo version then timers
  else { timers with setInterval := .hooked timers.setInterval }

/-- Modelled from the spec (for comparison only, not from the source): the
documented threshold test, reading the version as a numeric
(major, minor, patch) triple and comparing it lexicographically against
`(1, 6, 2)`. -/
def versionAtLeastOneSixTwoSpec (v : String) : Bool :=
  match (splitOnDot (v.toList.drop 1)).map jsToNum with
  | [some a, some b, some c] =>
    decide (1 < a ∨ (a = 1 ∧ (6 < b ∨ (b = 6 ∧ 2 ≤ c))))
  | _ => false

/-! Concrete environments used by counterexamples and witnesses. -/

/-- Reflection data of a named function `f`. -/
def fnNamed : FnData := { fnName := "f", src := "function f()", location := none }

/-- A handle whose chain has two qualifying nodes carrying the same callable:
node 1 and node 2 both hold `_onTimeout = f`. -/
def envChainDup : Env :=
  { nodes :=
      [ { idleNext := some 1 },
        { idleNext := some 2, onTimeout := some (.fnv 0), idleTimeout := .num 10 },
        { onTimeout := some (.fnv 0), idleTimeout := .num 10 } ],
    fns := fun _ => fnNamed,
    render := fun _ => none }

/-- A handle whose nested socket record exposes the same callable under the
two field names `a` and `b`, with no file descriptor. -/
def envSockDup : Env :=
  { nodes := [ { handleRec := some [("a", .fnv 0), ("b", .fnv 0)] } ],
    fns := fun _ => fnNamed,
    render := fun _ => none }

/-- A handle whose chain node holds an anonymous `_onTimeout` callable for
which the runtime supplies no source location. -/
def envAnonNoLoc : Env :=
  { nodes :=
      [ { idleNext := some 1 },
        { onTimeout := some (.fnv 0), idleTimeout := .num 10 } ],
    fns := fun _ => { fnName := "", src := "function ()", location := none },
    render := fun _ => none }

/-- A handle whose nested socket record carries `fd = 7` and a callable under
the unrecognized field name `foo`. -/
def envSockUnknown : Env :=
  { nodes := [ { handleRec := some [("foo", .fnv 0), ("fd", .num 7)] } ],
    fns := fun _ => fnNamed,
    render := fun _ => none }

/-- A handle whose nested socket record carries `fd = 7` and a callable under
`onconnection`. -/
def envSockConn : Env :=
  { nodes := [ { handleRec := some [("onconnection", .fnv 0), ("fd", .num 7)] } ],
    fns := fun _ => fnNamed,
    render := fun _ => none }

/-- A handle whose nested socket record carries `fd = 7` and a callable under
`onread`. -/
def envSockRead : Env :=
  { nodes := [ { handleRec := some [("onread", .fnv 0), ("fd", .num 7)] } ],
    fns := fun _ => fnNamed,
    render := fun _ => none }

/-- A cyclic chain: handle → node 1 → node 2 → node 1, no timer fields. -/
def envCycle : Env :=
  { nodes :=
      [ { idleNext := some 1 },
        { idleNext := some 2 },
        { idleNext := some 1 } ],
    fns := fun _ => fnNamed,
    render := fun _ => none }

/-- Spec scenario A: an `_idleNext` chain of length 3 where only node 2
carries a timeout marker with a callable `_onTimeout`. -/
def envScenarioA : Env :=
  { nodes :=
      [ { idleNext := some 1 },
        { idleNext := some 2 },
        { idleNext := some 3, onTimeout := some (.fnv 0), idleTimeout := .num 50 },
        { } ],
    fns := fun _ => { fnName := "cb", src := "function cb()", location := none },
    render := fun _ => none }

/-- An anonymous callable with a known location and inferred name `x`,
against a renderer that always fails. -/
def envAnonRenderFail : Env :=
  { nodes := [],
    fns := fun _ =>
      { fnName := "", src := "function ()",
        location := some { file := "a.js", line := 3, column := 1, inferredName := some "x" } },
    render := fun _ => none }

/-- A named callable against a renderer that always succeeds with the empty
string. -/
def envRenderEmpty : Env :=
  { nodes := [],
    fns := fun _ => { fnName := "g", src := "function g()", location := none },
    render := fun _ => some "" }

/-- A socket record with `fd = 0` (falsy) and a callable under
`onconnection`. -/
def sockFdZero : List (String × JsVal) := [("onconnection", .fnv 0), ("fd", .num 0)]

/-- A handle exposing `sockFdZero` as its nested socket record. -/
def envSockFdZero : Env :=
  { nodes := [ { handleRec := some sockFdZero } ],
    fns := fun _ => fnNamed,
    render := fun _ => none }

/-- The single entry `envSockFdZero` resolves to. -/
def sockFdZeroInfo : Info :=
  { fnId := .fnv 0, name := "f", source := "function f()",
    highlighted := "function f()", location := none }

/-- Two distinct raw handles (nodes 0 and 2) whose chains both reach the
timer node 1 and therefore resolve to the identical callable. -/
def envTwoTimers : Env :=
  { nodes :=
      [ { idleNext := some 1 },
        { onTimeout := some (.fnv 0), idleTimeout := .num 25 },
        { idleNext := some 1 } ],
    fns := fun _ => fnNamed,
    render := fun _ => none }

/-- The entry both handles of `envTwoTimers` resolve to. -/
def oneTimerInfo : Info :=
  { fnId := .fnv 0, name := "f", source := "function f()",
    highlighted := "function f()", location := none,
    msecs := some (.num 25), type := some "setTimeout" }

/-- An anonymous callable with an inferred name, used by the name-sentinel
witness. -/
def envAnonInferred : Env :=
  { nodes := [],
    fns := fun _ =>
      { fnName := "", src := "function ()",
        location := some { file := "b.js", line := 7, column := 2, inferredName := some "myCb" } },
    render := fun _ => none }

/-- The entry `functionInfo` produces for `envAnonInferred`'s callable. -/
def anonInferredInfo : Info :=
  { fnId := .fnv 0, name := "myCb", source := "function ()",
    highlighted := "myCb = function ()",
    location := some { file := "b.js", line := 8, column := 2, inferredName := some "myCb" } }

/-- A single-timer-node chain with symbolic node contents, used to state the
callback-selection and classification property. -/
def chainEnv1 (node : Node) (fns : Nat → FnData) (render : String → Option String) : Env :=
  { nodes := [{ idleNext := some 1 }, node], fns := fns, render := render }

/-- The concrete timer node of the claim-3 witness. -/
def nodeOneShot : Node := { onTimeout := some (.fnv 0), idleTimeout := .num 50 }

/-- Reflection oracle of the claim-3 witness. -/
def fnsCb : Nat → FnData := fun _ => { fnName := "cb", src := "function cb()", location := none }

/-- A renderer that always fails. -/
def renderNone : String → Option String := fun _ => none

/-! Helper lemmas. -/

/-- `functionInfo` never produces the fuel marker. -/
lemma functionInfo_ne_outOfFuel (env : Env) (v : JsVal) :
    functionInfo env v ≠ .error .outOfFuel := by
  cases v <;> simp only [functionInfo] <;> try simp
  split
  · split <;> simp
  · simp

/-- `addInfo` never produces the fuel marker. -/
lemma addInfo_ne_outOfFuel (env : Env) (st : St) (v : JsVal) :
    addInfo env st v ≠ .error .outOfFuel := by
  unfold addInfo
  split
  · simp
  · cases h : functionInfo env v with
    | error e =>
      have := functionInfo_ne_outOfFuel env v
      rw [h] at this
      simp only []
      intro hc
      cases hc
      exact this rfl
    | ok info => simp

/-- `addInfo` does not touch the visited list. -/
lemma addInfo_visited (env : Env) (st : St) (v : JsVal) (st' : St) (o : Option Info)
    (h : addInfo env st v = .ok (st', o)) : st'.visited = st.visited := by
  unfold addInfo at h
  split at h
  · cases h; rfl
  · split at h
    · cases h
    · cases h; rfl

/-- `mutateLast` does not touch the visited list. -/
lemma mutateLast_visited (st : St) (f : Info → Info) :
    (mutateLast st f).visited = st.visited := rfl

/-- `processTimerNode` never produces the fuel marker. -/
lemma processTimerNode_ne_outOfFuel (env : Env) (st : St) (node : Node) :
    processTimerNode env st node ≠ .error .outOfFuel := by
  simp only [processTimerNode]
  split
  · simp
  · set fn := if isFunctionV node.repeatF then node.repeatF
              else if isFunctionV node.wrappedCallback then node.wrappedCallback
              else node.onTimeout.getD .undefined with hfn
    cases h : addInfo env st fn with
    | error e =>
      have := addInfo_ne_outOfFuel env st fn
      rw [h] at this
      simp only []
      intro hc
      cases hc
      exact this rfl
    | ok p =>
      obtain ⟨st1, o⟩ := p
      cases o <;> simp

/-- `processTimerNode` does not touch the visited list. -/
lemma processTimerNode_visited (env : Env) (st : St) (node : Node) (st' : St)
    (h : processTimerNode env st node = .ok st') : st'.visited = st.visited := by
  simp only [processTimerNode] at h
  split at h
  · cases h; rfl
  · cases ha : addInfo env st (if isFunctionV node.repeatF then node.repeatF
        else if isFunctionV node.wrappedCallback then node.wrappedCallback
        else node.onTimeout.getD .undefined) with
    | error e => rw [ha] at h; cases h
    | ok p =>
      obtain ⟨st1, o⟩ := p
      rw [ha] at h
      cases o with
      | none => cases h
      | some i =>
        cases h
        rw [mutateLast_visited]
        exact addInfo_visited env st _ st1 _ ha

/-- A duplicate-free list of naturals below `n` has at most `n` elements. -/
lemma nodup_lt_length_le (l : List Nat) (n : Nat) (hnd : l.Nodup)
    (hlt : ∀ x ∈ l, x < n) : l.length ≤ n := by
  classical
  have h1 : l.toFinset.card = l.length := List.toFinset_card_of_nodup hnd
  have h2 : l.toFinset ⊆ Finset.range n := by
    intro x hx
    rw [List.mem_toFinset] at hx
    exact Finset.mem_range.mpr (hlt x hx)
  have h3 := Finset.card_le_card h2
  rw [h1, Finset.card_range] at h3
  exact h3

/-- Main specification of the chain walk: with duplicate-free, in-range
visited state and enough fuel, the walk does not exhaust its fuel, is
insensitive to extra fuel, and keeps the visited list duplicate-free. -/
lemma walk_spec (env : Env) :
    ∀ (fuel : Nat) (st : St) (cur : Option Nat),
      st.visited.Nodup → (∀ x ∈ st.visited, x < env.nodes.length) →
      env.nodes.length ≤ fuel + st.visited.length →
      walk env fuel st cur ≠ .error .outOfFuel ∧
      walk env (fuel + 1) st cur = walk env fuel st cur ∧
      ∀ st', walk env fuel st cur = .ok st' → st'.visited.Nodup := by
  intro fuel
  induction fuel with
  | zero =>
    intro st cur hnd hb hle
    cases cur with
    | none =>
      refine ⟨by simp [walk], by simp [walk], ?_⟩
      intro st' h
      simp only [walk] at h
      cases h
      exact hnd
    | some i =>
      by_cases hv : i ∈ st.visited
      · refine ⟨by simp [walk, hv], by simp [walk, hv], ?_⟩
        intro st' h
        simp only [walk, if_pos hv] at h
        cases h
        exact hnd
      · cases hget : env.getNode i with
        | none =>
          refine ⟨by simp [walk, hv, hget], by simp [walk, hv, hget], ?_⟩
          intro st' h
          simp only [walk, if_neg hv, hget] at h
          cases h
          exact hnd
        | some node =>
          exfalso
          have hilt : i < env.nodes.length := by
            by_contra hge
            rw [Env.getNode, List.get?_eq_none.mpr (Nat.le_of_not_lt hge)] at hget
            cases hget
          have hcons : (st.visited ++ [i]).Nodup := by
            simp [List.nodup_append, hnd, hv]
          have hblt : ∀ x ∈ st.visited ++ [i], x < env.nodes.length := by
            intro x hx
            rcases List.mem_append.mp hx with hx | hx
            · exact hb x hx
            · simp at hx; omega
          have := nodup_lt_length_le _ _ hcons hblt
          simp at this
          omega
  | succ fuel ih =>
    intro st cur hnd hb hle
    cases cur with
    | none =>
      refine ⟨by simp [walk], by simp [walk], ?_⟩
      intro st' h
      simp only [walk] at h
      cases h
      exact hnd
    | some i =>
      by_cases hv : i ∈ st.visited
      · refine ⟨by simp [walk, hv], by simp [walk, hv], ?_⟩
        intro st' h
        simp only [walk, if_pos hv] at h
        cases h
        exact hnd
      · cases hget : env.getNode i with
        | none =>
          refine ⟨by simp [walk, hv, hget], by simp [walk, hv, hget], ?_⟩
          intro st' h
          simp only [walk, if_neg hv, hget] at h
          cases h
          exact hnd
        | some node =>
          have hilt : i < env.nodes.length := by
            by_contra hge
            rw [Env.getNode, List.get?_eq_none.mpr (Nat.le_of_not_lt hge)] at hget
            cases hget
          cases hpt : processTimerNode env { st with visited := st.visited ++ [i] } node with
          | error e =>
            have hne : e ≠ .outOfFuel := by
              intro he
              rw [he] at hpt
              exact processTimerNode_ne_outOfFuel env _ node hpt
            refine ⟨?_, ?_, ?_⟩
            · simp only [walk, if_neg hv, hget, hpt]
              intro hc
              cases hc
              exact hne rfl
            · simp only [walk, if_neg hv, hget, hpt]
            · intro st' h
              simp only [walk, if_neg hv, hget, hpt] at h
              cases h
          | ok st1 =>
            have hv1 : st1.visited = st.visited ++ [i] :=
              processTimerNode_visited env _ node st1 hpt
            have hnd1 : st1.visited.Nodup := by
              rw [hv1]; simp [List.nodup_append, hnd, hv]
            have hb1 : ∀ x ∈ st1.visited, x < env.nodes.length := by
              intro x hx
              rw [hv1] at hx
              rcases List.mem_append.mp hx with hx | hx
              · exact hb x hx
              · simp at hx; omega
            have hle1 : env.nodes.length ≤ fuel + st1.visited.length := by
              rw [hv1]; simp; omega
            obtain ⟨ihne, ihmono, ihnd⟩ := ih st1 node.idleNext hnd1 hb1 hle1
            refine ⟨?_, ?_, ?_⟩
            · simp only [walk, if_neg hv, hget, hpt]
              exact ihne
            · simp only [walk, if_neg hv, hget, hpt]
              exact ihmono
            · intro st' h
              simp only [walk, if_neg hv, hget, hpt] at h
              exact ihnd st' h

/-- Extra fuel beyond the sufficient bound does not change the walk. -/
lemma walk_add_fuel (env : Env) (extra : Nat) :
    ∀ (fuel : Nat) (st : St) (cur : Option Nat),
      st.visited.Nodup → (∀ x ∈ st.visited, x < env.nodes.length) →
      env.nodes.length ≤ fuel + st.visited.length →
      walk env (fuel + extra) st cur = walk env fuel st cur := by
  induction extra with
  | zero => intro fuel st cur _ _ _; rfl
  | succ extra ih =>
    intro fuel st cur hnd hb hle
    have h1 : fuel + (extra + 1) = (fuel + extra) + 1 := by omega
    rw [h1]
    have h2 := (walk_spec env (fuel + extra) st cur hnd hb (by omega)).2.1
    rw [h2]
    exact ih fuel st cur hnd hb hle

/-- `addHandleFn` never produces the fuel marker. -/
lemma addHandleFn_ne_outOfFuel (env : Env) (sock : List (String × JsVal)) (st : St)
    (key : String) : addHandleFn env sock st key ≠ .error .outOfFuel := by
  simp only [addHandleFn]
  split
  · simp
  · cases ha : addInfo env st ((sock.lookup key).getD .undefined) with
    | error e =>
      have := addInfo_ne_outOfFuel env st ((sock.lookup key).getD .undefined)
      rw [ha] at this
      simp only []
      intro hc
      cases hc
      exact this rfl
    | ok p =>
      obtain ⟨st1, o⟩ := p
      dsimp only
      split
      · cases o with
        | none => simp
        | some i =>
          dsimp only
          split
          · simp
          · split <;> simp
      · simp

/-- `addHandleFn` does not touch the visited list. -/
lemma addHandleFn_visited (env : Env) (sock : List (String × JsVal)) (st : St)
    (key : String) (st' : St) (h : addHandleFn env sock st key = .ok st') :
    st'.visited = st.visited := by
  simp only [addHandleFn] at h
  split at h
  · cases h; rfl
  · cases ha : addInfo env st ((sock.lookup key).getD .undefined) with
    | error e => rw [ha] at h; cases h
    | ok p =>
      obtain ⟨st1, o⟩ := p
      rw [ha] at h
      have hv1 : st1.visited = st.visited := addInfo_visited env st _ st1 o ha
      dsimp only at h
      split at h
      · cases o with
        | none => cases h
        | some i =>
          dsimp only at h
          split at h
          · cases h; simp [mutateLast_visited, hv1]
          · split at h
            · cases h; simp [mutateLast_visited, hv1]
            · cases h; simp [mutateLast_visited, hv1]
      · cases h; exact hv1

/-- `processSocketKeys` never produces the fuel marker. -/
lemma processSocketKeys_ne_outOfFuel (env : Env) (sock : List (String × JsVal)) :
    ∀ (keys : List String) (st : St),
      processSocketKeys env sock st keys ≠ .error .outOfFuel := by
  intro keys
  induction keys with
  | nil => intro st; simp [processSocketKeys]
  | cons k ks ih =>
    intro st
    simp only [processSocketKeys]
    cases hk : addHandleFn env sock st k with
    | error e =>
      have := addHandleFn_ne_outOfFuel env sock st k
      rw [hk] at this
      intro hc
      cases hc
      exact this rfl
    | ok st1 => exact ih st1

/-- `processSocketKeys` does not touch the visited list. -/
lemma processSocketKeys_visited (env : Env) (sock : List (String × JsVal)) :
    ∀ (keys : List String) (st st' : St),
      processSocketKeys env sock st keys = .ok st' → st'.visited = st.visited := by
  intro keys
  induction keys with
  | nil => intro st st' h; simp only [processSocketKeys] at h; cases h; rfl
  | cons k ks ih =>
    intro st st' h
    simp only [processSocketKeys] at h
    cases hk : addHandleFn env sock st k with
    | error e => rw [hk] at h; cases h
    | ok st1 =>
      rw [hk] at h
      rw [ih st1 st' h]
      exact addHandleFn_visited env sock st k st1 hk

/-! Claim theorems. -/

/-- C6: for every raw handle (in particular one whose `_idleNext` chain
contains a cycle), the chain walk of `resolveHandle` terminates — the engine's
result is unchanged by any extra walk fuel beyond the modelled bound and the
fuel marker is unreachable — and visits each chain node at most once (the
visited list of the cycle guard stays duplicate-free). -/
theorem chain_walk_terminates_and_visits_once :
    ∀ (env : Env) (hid : Nat) (extra : Nat),
      resolveHandleStFuel env (env.nodes.length + 1 + extra) hid = resolveHandleSt env hid ∧
      resolveHandleSt env hid ≠ .error .outOfFuel ∧
      ∀ st, resolveHandleSt env hid = .ok st → st.visited.Nodup := by
  intro env hid extra
  unfold resolveHandleSt resolveHandleStFuel
  cases hget : env.getNode hid with
  | none =>
    refine ⟨rfl, by simp, ?_⟩
    intro st h
    cases h
  | some handle =>
    dsimp only
    have hnil : (({} : St)).visited.Nodup := List.nodup_nil
    have hb : ∀ x ∈ (({} : St)).visited, x < env.nodes.length := by
      intro x hx
      cases hx
    have hwm := walk_add_fuel env extra (env.nodes.length + 1) {} handle.idleNext hnil hb
      (by simp)
    have hws := walk_spec env (env.nodes.length + 1) {} handle.idleNext hnil hb (by simp)
    cases hw : walk env (env.nodes.length + 1) {} handle.idleNext with
    | error e =>
      have hne : e ≠ .outOfFuel := by
        intro he
        rw [he] at hw
        exact hws.1 hw
      rw [hw] at hwm
      refine ⟨by rw [hwm], ?_, ?_⟩
      · intro hc
        cases hc
        exact hne rfl
      · intro st h
        cases h
    | ok st1 =>
      rw [hw] at hwm
      refine ⟨by rw [hwm], ?_, ?_⟩
      · cases hh : handle.handleRec with
        | none => simp
        | some sock => exact processSocketKeys_ne_outOfFuel env sock _ st1
      · intro st h
        have hnd1 : st1.visited.Nodup := hws.2.2 st1 hw
        cases hh : handle.handleRec with
        | none =>
          rw [hh] at h
          cases h
          exact hnd1
        | some sock =>
          rw [hh] at h
          rw [processSocketKeys_visited env sock _ st1 st h]
          exact hnd1

/-- C6 witness: a concrete cyclic chain (handle → node 1 → node 2 → node 1)
walked to completion, visiting nodes 1 and 2 exactly once. -/
theorem chain_walk_terminates_and_visits_once_witness :
    resolveHandleStFuel envCycle (envCycle.nodes.length + 1 + 5) 0 = resolveHandleSt envCycle 0 ∧
    resolveHandleSt envCycle 0 ≠ .error .outOfFuel ∧
    resolveHandleSt envCycle 0 = .ok { visited := [1, 2] } ∧
    ([1, 2] : List Nat).Nodup :=
  ⟨(chain_walk_terminates_and_visits_once envCycle 0 5).1,
   (chain_walk_terminates_and_visits_once envCycle 0 5).2.1,
   by decide,
   (chain_walk_terminates_and_visits_once envCycle 0 5).2.2 { visited := [1, 2] } (by decide)⟩

/-- C1: when the same callable is discovered at two qualifying chain nodes,
`addInfo` returns `undefined` for the second discovery and the subsequent
`addedInfo.msecs` assignment throws a `TypeError`, so `resolveHandle` does not
complete normally (the claim's dedup-and-continue behaviour only survives when
the duplicate comes from a socket field on a record whose `fd` is falsy, where
exactly one entry is emitted). -/
theorem duplicate_callable_throws :
    resolveHandle envChainDup 0 = .error .typeError ∧
    (resolveHandle envSockDup 0).map List.length = .ok 1 := by decide

/-- C2: `resolveHandle` is not crash-free on partially-populated records: an
anonymous `_onTimeout` callable for which the runtime supplies no source
location makes `functionInfo` read `location.inferredName` off `undefined`,
throwing a `TypeError` that propagates out of `resolveHandle`. -/
theorem anonymous_no_location_throws :
    resolveHandle envAnonNoLoc 0 = .error .typeError := by decide

/-- C4: on a descriptor-bearing socket record the named fields are refined
(`onconnection` and `onread` set the entry's type), but an unrecognized
callable field does not yield `type = "unknown"` on the resolved entry: the
source's `default` branch assigns to the `addInfo` function object instead, so
the entry's type stays unset while its `fd` is still attached. -/
theorem socket_unknown_field_type_unset :
    (resolveHandle envSockUnknown 0).map (List.map fun i => (i.type, i.fd)) =
      .ok [(none, some (.num 7))] ∧
    (resolveHandle envSockConn 0).map (List.map fun i => (i.type, i.fd)) =
      .ok [(some "net connection", some (.num 7))] ∧
    (resolveHandle envSockRead 0).map (List.map fun i => (i.type, i.fd)) =
      .ok [(some "net client connection", some (.num 7))] := by decide

/-- C5: `hookSetInterval` is not a no-op on every version at or above 1.6.2:
the component-wise digit comparison of `versionGreaterEqualOneSixTwo` reports
`false` for `v2.0.0` (minor 0 < 6) and `v1.7.1` (patch 1 < 2), so the timer
entry point is patched there although both versions exceed the documented
threshold; at the threshold itself it is left unchanged. -/
theorem hook_patches_above_threshold :
    versionAtLeastOneSixTwoSpec "v2.0.0" = true ∧
    versionGreaterEqualOneSixTwo "v2.0.0" = false ∧
    hookSetInterval "v2.0.0" { setInterval := .original } =
      { setInterval := .hooked .original } ∧
    versionAtLeastOneSixTwoSpec "v1.7.1" = true ∧
    versionGreaterEqualOneSixTwo "v1.7.1" = false ∧
    hookSetInterval "v1.7.1" { setInterval := .original } =
      { setInterval := .hooked .original } ∧
    versionGreaterEqualOneSixTwo "v1.6.2" = true ∧
    hookSetInterval "v1.6.2" { setInterval := .original } =
      { setInterval := .original } := by decide

/-- C3: at a qualifying chain node the callable is selected with
repeat-over-wrapped-over-`_onTimeout` precedence, the entry is classified
`setInterval` (repeating) exactly when the repeat or wrapped path was used and
`setTimeout` (one-shot) otherwise, and `msecs` is taken from `_idleTimeout` in
both branches; in spec scenario A (chain of length 3, only node 2 carrying a
timeout marker with a callable) exactly one `setTimeout` entry results. -/
theorem timer_callback_precedence_and_classification :
    (∀ (node : Node) (fns : Nat → FnData) (render : String → Option String) (i : Nat),
      node.idleNext = none →
      (!isFunctionV node.repeatF && !isFunctionV node.wrappedCallback
        && node.onTimeout.isNone) = false →
      (if isFunctionV node.repeatF then node.repeatF
       else if isFunctionV node.wrappedCallback then node.wrappedCallback
       else node.onTimeout.getD .undefined) = .fnv i →
      (fns i).fnName ≠ "" →
      resolveHandle (chainEnv1 node fns render) 0 =
        .ok [{ fnId := .fnv i, name := (fns i).fnName, source := (fns i).src,
               highlighted := highlightSource render (fns i).src,
               location := (fns i).location.map fun l => { l with line := l.line + 1 },
               msecs := some node.idleTimeout,
               type := some (if isFunctionV node.wrappedCallback || isFunctionV node.repeatF
                             then "setInterval" else "setTimeout") }]) ∧
    (resolveHandle envScenarioA 0).map (List.map fun i => (i.type, i.msecs)) =
      .ok [(some "setTimeout", some (.num 50))] := by
  constructor
  · intro node fns render i hnext hqual hsel hname
    simp only [resolveHandle, resolveHandleSt, resolveHandleStFuel, chainEnv1, Env.getNode,
      List.get?_cons_zero, List.get?_cons_succ, List.length_cons, List.length_nil, walk,
      List.not_mem_nil, if_false, processTimerNode, hqual, hsel, hname, addInfo, functionInfo,
      mutateLast, setLast, hnext, Bool.false_eq_true, ite_false, if_neg hname]
    rfl
  · decide

/-- C3 witness: a concrete one-shot timer node (`_onTimeout` only) resolved
through the generic precedence theorem. -/
theorem timer_callback_precedence_witness :
    nodeOneShot.idleNext = none ∧
    resolveHandle (chainEnv1 nodeOneShot fnsCb renderNone) 0 =
      .ok [{ fnId := .fnv 0, name := "cb", source := "function cb()",
             highlighted := "function cb()", location := none,
             msecs := some (.num 50), type := some "setTimeout" }] :=
  ⟨rfl,
   timer_callback_precedence_and_classification.1 nodeOneShot fnsCb renderNone 0 rfl
     (by decide) rfl (by decide)⟩

/-- C7 counterexample: with a failing renderer, the fallback for an anonymous
callable is `name ++ " = " ++ source`, not `source` verbatim; and when the
renderer succeeds but returns the empty string, `renderedSource` is empty
although `source` is not. -/
theorem render_fallback_counterexample :
    functionInfo envAnonRenderFail (.fnv 0) =
      .ok { fnId := .fnv 0, name := "x", source := "function ()",
            highlighted := "x = function ()",
            location := some { file := "a.js", line := 4, column := 1,
                               inferredName := some "x" } } ∧
    envAnonRenderFail.render "x = function ()" = none ∧
    "x = function ()" ≠ "function ()" ∧
    functionInfo envRenderEmpty (.fnv 0) =
      .ok { fnId := .fnv 0, name := "g", source := "function g()",
            highlighted := "", location := none } ∧
    envRenderEmpty.render "function g()" = some "" ∧
    "function g()" ≠ "" := by decide

/-- C7 amended: whenever `functionInfo` succeeds, `source` is the callable's
raw source; if the renderer failed on the string it was given (`source` itself
for a named callable, `name ++ " = " ++ source` for an anonymous one),
`renderedSource` is exactly that string, and is then non-empty whenever
`source` is non-empty; if the renderer succeeded, `renderedSource` is its
output verbatim; and the renderer's behaviour never affects whether
resolution succeeds. -/
theorem render_fallback_amended :
    ∀ (env : Env) (i : Nat) (info : Info),
      functionInfo env (.fnv i) = .ok info →
      info.source = (env.fns i).src ∧
      (env.render (if (env.fns i).fnName = "" then info.name ++ " = " ++ (env.fns i).src
                   else (env.fns i).src) = none →
        info.highlighted = (if (env.fns i).fnName = "" then info.name ++ " = " ++ info.source
                            else info.source) ∧
        (info.source ≠ "" → info.highlighted ≠ "")) ∧
      (∀ r, env.render (if (env.fns i).fnName = "" then info.name ++ " = " ++ (env.fns i).src
                        else (env.fns i).src) = some r →
        info.highlighted = r) ∧
      (∀ render', (functionInfo { env with render := render' } (.fnv i)).isOk = true) := by
  intro env i info h
  simp only [functionInfo] at h
  by_cases hname : (env.fns i).fnName = ""
  · rw [if_pos hname] at h
    cases hloc : (env.fns i).location with
    | none =>
      rw [hloc] at h
      cases h
    | some l =>
      rw [hloc] at h
      dsimp only [Option.map] at h
      cases h
      refine ⟨rfl, ?_, ?_, ?_⟩
      · intro hr
        rw [if_pos hname] at hr
        dsimp only [highlightSource]
        rw [hr]
        rw [if_pos hname]
        refine ⟨rfl, ?_⟩
        intro _ hc
        have h3 : (" = " : String).length = 3 := by decide
        have hlen := congrArg String.length hc
        rw [String.length_append, String.length_append, h3] at hlen
        simp at hlen
      · intro r hr
        rw [if_pos hname] at hr
        dsimp only [highlightSource]
        rw [hr]
      · intro render'
        simp only [functionInfo, if_pos hname, hloc, Option.map]
        rfl
  · rw [if_neg hname] at h
    cases h
    refine ⟨rfl, ?_, ?_, ?_⟩
    · intro hr
      rw [if_neg hname] at hr
      dsimp only [highlightSource]
      rw [hr]
      rw [if_neg hname]
      exact ⟨rfl, fun hs => hs⟩
    · intro r hr
      rw [if_neg hname] at hr
      dsimp only [highlightSource]
      rw [hr]
    · intro render'
      simp only [functionInfo, if_neg hname]
      rfl

/-- C7 witness: the amended fallback law at a concrete anonymous callable with
an always-failing renderer. -/
theorem render_fallback_amended_witness :
    functionInfo envAnonRenderFail (.fnv 0) =
      .ok { fnId := .fnv 0, name := "x", source := "function ()",
            highlighted := "x = function ()",
            location := some { file := "a.js", line := 4, column := 1,
                               inferredName := some "x" } } ∧
    "x = function ()" = (if (envAnonRenderFail.fns 0).fnName = ""
                         then "x" ++ " = " ++ "function ()" else "function ()") ∧
    "x = function ()" ≠ "" :=
  ⟨by decide,
   by decide,
   ((render_fallback_amended envAnonRenderFail 0
      { fnId := .fnv 0, name := "x", source := "function ()",
        highlighted := "x = function ()",
        location := some { file := "a.js", line := 4, column := 1,
                           inferredName := some "x" } }
      (by decide)).2.1 (by decide)).2 (by decide)⟩

/-- C8: for every anonymous callable on which resolution succeeds, the entry's
name is the runtime-inferred name when that is non-empty and exactly the
sentinel `__unknown_function_name__` otherwise, and it is never the empty
string. -/
theorem anonymous_name_sentinel :
    ∀ (env : Env) (i : Nat) (info : Info),
      (env.fns i).fnName = "" →
      functionInfo env (.fnv i) = .ok info →
      info.name ≠ "" ∧
      ∃ loc, (env.fns i).location = some loc ∧
        (∀ n, loc.inferredName = some n → n ≠ "" → info.name = n) ∧
        (loc.inferredName.getD "" = "" → info.name = "__unknown_function_name__") := by
  intro env i info hname h
  simp only [functionInfo, if_pos hname] at h
  cases hloc : (env.fns i).location with
  | none => rw [hloc] at h; cases h
  | some l =>
    rw [hloc] at h
    dsimp only [Option.map] at h
    cases h
    refine ⟨?_, ⟨l, rfl, ?_, ?_⟩⟩
    · cases hin : l.inferredName with
      | none => simp [hin]
      | some n =>
        by_cases hn : n = ""
        · simp [hin, hn]
        · simp [hin, hn]
    · intro n hn hne
      simp [hn, hne]
    · intro hd
      cases hin : l.inferredName with
      | none => simp [hin]
      | some n =>
        rw [hin] at hd
        simp only [Option.getD] at hd
        simp [hin, hd]

/-- C8 witness: a concrete anonymous callable whose inferred name `myCb` is
used as the entry name. -/
theorem anonymous_name_sentinel_witness :
    (envAnonInferred.fns 0).fnName = "" ∧
    functionInfo envAnonInferred (.fnv 0) = .ok anonInferredInfo ∧
    anonInferredInfo.name ≠ "" :=
  ⟨by decide, by decide,
   (anonymous_name_sentinel envAnonInferred 0 anonInferredInfo (by decide) (by decide)).1⟩

/-- Accumulator law of `resolveHandlesAux`. -/
lemma resolveHandlesAux_acc (env : Env) :
    ∀ (hs : List Nat) (acc : List Info),
      resolveHandlesAux env acc hs = (resolveHandlesAux env [] hs).map (acc ++ ·) := by
  intro hs
  induction hs with
  | nil => intro acc; simp [resolveHandlesAux, Except.map]
  | cons h hs ih =>
    intro acc
    simp only [resolveHandlesAux]
    cases hr : resolveHandle env h with
    | error e => simp [Except.map]
    | ok l =>
      dsimp only
      rw [ih (acc ++ l), List.nil_append, ih l]
      cases resolveHandlesAux env [] hs with
      | error e => simp [Except.map]
      | ok l2 => simp [Except.map, List.append_assoc]

/-- C9: `resolveHandles` returns exactly the in-order concatenation of
`resolveHandle` over the input records: the empty input yields the empty
sequence (as does the `activeHandles` short-circuit), prepending a record
prepends its resolved entries, an error in one record propagates, and two
handles resolving to the identical callable contribute one entry each with no
cross-handle deduplication. -/
theorem resolveHandles_concatenation :
    (∀ env : Env, resolveHandles env [] = .ok []) ∧
    (∀ env : Env, activeHandles env [] = .ok []) ∧
    (∀ (env : Env) (h : Nat) (hs : List Nat) (l : List Info),
       resolveHandle env h = .ok l →
       resolveHandles env (h :: hs) = (resolveHandles env hs).map (l ++ ·)) ∧
    (∀ (env : Env) (h : Nat) (hs : List Nat) (e : JsErr),
       resolveHandle env h = .error e →
       resolveHandles env (h :: hs) = .error e) ∧
    (∀ (env : Env) (h1 h2 : Nat) (l1 l2 : List Info),
       resolveHandle env h1 = .ok l1 → resolveHandle env h2 = .ok l2 →
       resolveHandles env [h1, h2] = .ok (l1 ++ l2)) := by
  have hcons : ∀ (env : Env) (h : Nat) (hs : List Nat) (l : List Info),
      resolveHandle env h = .ok l →
      resolveHandles env (h :: hs) = (resolveHandles env hs).map (l ++ ·) := by
    intro env h hs l hr
    simp only [resolveHandles, resolveHandlesAux, hr]
    rw [List.nil_append]
    exact resolveHandlesAux_acc env hs l
  have herr : ∀ (env : Env) (h : Nat) (hs : List Nat) (e : JsErr),
      resolveHandle env h = .error e →
      resolveHandles env (h :: hs) = .error e := by
    intro env h hs e hr
    simp only [resolveHandles, resolveHandlesAux, hr]
  refine ⟨?_, ?_, hcons, herr, ?_⟩
  · intro env; rfl
  · intro env; rfl
  · intro env h1 h2 l1 l2 h1r h2r
    rw [hcons env h1 [h2] l1 h1r, hcons env h2 [] l2 h2r]
    simp [resolveHandles, resolveHandlesAux, Except.map]

/-- C9 witness: two distinct raw handles resolving to the identical callable
produce two entries in input order. -/
theorem resolveHandles_concatenation_witness :
    resolveHandle envTwoTimers 0 = .ok [oneTimerInfo] ∧
    resolveHandle envTwoTimers 2 = .ok [oneTimerInfo] ∧
    resolveHandles envTwoTimers [0, 2] = .ok ([oneTimerInfo] ++ [oneTimerInfo]) :=
  ⟨by decide, by decide,
   resolveHandles_concatenation.2.2.2.2 envTwoTimers 0 2 [oneTimerInfo] [oneTimerInfo]
     (by decide) (by decide)⟩

/-- Entries produced before (or without) any descriptor-based refinement:
no file descriptor attached, and a type that is at most a timer
classification. -/
def timerOnly (i : Info) : Prop :=
  i.fd = none ∧ (i.type = none ∨ i.type = some "setInterval" ∨ i.type = some "setTimeout")

/-- A fresh `functionInfo` entry has no `fd` and no `type`. -/
lemma functionInfo_fresh (env : Env) (v : JsVal) (info : Info)
    (h : functionInfo env v = .ok info) : info.fd = none ∧ info.type = none := by
  cases v with
  | undefined => cases h
  | num n => cases h
  | str s => cases h
  | fnv id =>
    simp only [functionInfo] at h
    split at h
    · split at h
      · cases h
      · cases h; exact ⟨rfl, rfl⟩
    · cases h; exact ⟨rfl, rfl⟩

/-- Membership after a last-element update. -/
lemma setLast_mem (f : Info → Info) :
    ∀ (l : List Info) (a : Info), a ∈ setLast f l → a ∈ l ∨ ∃ b ∈ l, a = f b := by
  intro l
  induction l with
  | nil => intro a ha; cases ha
  | cons x xs ih =>
    intro a ha
    cases xs with
    | nil =>
      simp only [setLast, List.mem_singleton] at ha
      exact Or.inr ⟨x, by simp, ha⟩
    | cons y ys =>
      simp only [setLast] at ha
      rcases List.mem_cons.mp ha with h | h
      · exact Or.inl (by simp [h])
      · rcases ih a h with h1 | ⟨b, hb, hab⟩
        · exact Or.inl (List.mem_cons_of_mem x h1)
        · exact Or.inr ⟨b, List.mem_cons_of_mem x hb, hab⟩

/-- `mutateLast` preserves an entry predicate preserved by the mutation. -/
lemma mutateLast_entries (P : Info → Prop) (st : St) (f : Info → Info)
    (hall : ∀ i ∈ st.resolved, P i) (hf : ∀ i, P i → P (f i)) :
    ∀ i ∈ (mutateLast st f).resolved, P i := by
  intro i hi
  simp only [mutateLast] at hi
  rcases setLast_mem f st.resolved i hi with h | ⟨b, hb, hib⟩
  · exact hall i h
  · rw [hib]; exact hf b (hall b hb)

/-- `addInfo` preserves an entry predicate holding of every fresh entry. -/
lemma addInfo_entries (env : Env) (P : Info → Prop)
    (hnew : ∀ (v : JsVal) (info : Info), functionInfo env v = .ok info → P info) :
    ∀ (st : St) (v : JsVal) (st' : St) (o : Option Info),
      (∀ i ∈ st.resolved, P i) → addInfo env st v = .ok (st', o) →
      ∀ i ∈ st'.resolved, P i := by
  intro st v st' o hall h
  simp only [addInfo] at h
  split at h
  · cases h; exact hall
  · cases hfi : functionInfo env v with
    | error e => rw [hfi] at h; cases h
    | ok newInfo =>
      rw [hfi] at h
      dsimp only at h
      cases h
      intro i hi
      dsimp only at hi
      rcases List.mem_append.mp hi with h1 | h1
      · exact hall i h1
      · rw [List.mem_singleton] at h1
        rw [h1]
        exact hnew v newInfo hfi

/-- `processTimerNode` keeps every entry `timerOnly`. -/
lemma processTimerNode_timerOnly (env : Env) (st : St) (node : Node) (st' : St)
    (hall : ∀ i ∈ st.resolved, timerOnly i)
    (h : processTimerNode env st node = .ok st') :
    ∀ i ∈ st'.resolved, timerOnly i := by
  have hnew : ∀ (v : JsVal) (info : Info), functionInfo env v = .ok info → timerOnly info := by
    intro v info hv
    obtain ⟨h1, h2⟩ := functionInfo_fresh env v info hv
    exact ⟨h1, Or.inl h2⟩
  simp only [processTimerNode] at h
  split at h
  · cases h; exact hall
  · cases ha : addInfo env st (if isFunctionV node.repeatF then node.repeatF
        else if isFunctionV node.wrappedCallback then node.wrappedCallback
        else node.onTimeout.getD .undefined) with
    | error e => rw [ha] at h; cases h
    | ok p =>
      obtain ⟨st1, o⟩ := p
      rw [ha] at h
      cases o with
      | none => cases h
      | some j =>
        dsimp only at h
        cases h
        have hall1 := addInfo_entries env timerOnly hnew st _ st1 (some j) hall ha
        refine mutateLast_entries timerOnly st1 _ hall1 ?_
        intro i hti
        refine ⟨hti.1, ?_⟩
        dsimp only
        by_cases hw : (isFunctionV node.wrappedCallback || isFunctionV node.repeatF) = true
        · rw [if_pos hw]
          exact Or.inr (Or.inl rfl)
        · rw [if_neg hw]
          exact Or.inr (Or.inr rfl)

/-- The chain walk keeps every entry `timerOnly`. -/
lemma walk_timerOnly (env : Env) :
    ∀ (fuel : Nat) (st : St) (cur : Option Nat) (st' : St),
      (∀ i ∈ st.resolved, timerOnly i) →
      walk env fuel st cur = .ok st' →
      ∀ i ∈ st'.resolved, timerOnly i := by
  intro fuel
  induction fuel with
  | zero =>
    intro st cur st' hall h
    cases cur with
    | none => cases h; exact hall
    | some i =>
      simp only [walk] at h
      split at h
      · cases h; exact hall
      · split at h
        · cases h; exact hall
        · cases h
  | succ fuel ih =>
    intro st cur st' hall h
    cases cur with
    | none => cases h; exact hall
    | some i =>
      simp only [walk] at h
      split at h
      · cases h; exact hall
      · split at h
        · cases h; exact hall
        · rename_i node _
          cases hpt : processTimerNode env { st with visited := st.visited ++ [i] } node with
          | error e => rw [hpt] at h; cases h
          | ok st1 =>
            rw [hpt] at h
            have hall1 : ∀ j ∈ st1.resolved, timerOnly j :=
              processTimerNode_timerOnly env { st with visited := st.visited ++ [i] } node st1
                (by exact hall) hpt
            exact ih st1 node.idleNext st' hall1 h

/-- With a falsy socket `fd`, `addHandleFn` keeps every entry `timerOnly`. -/
lemma addHandleFn_timerOnly (env : Env) (sock : List (String × JsVal)) (st : St)
    (key : String) (st' : St)
    (hfd : truthy ((sock.lookup "fd").getD .undefined) = false)
    (hall : ∀ i ∈ st.resolved, timerOnly i)
    (h : addHandleFn env sock st key = .ok st') :
    ∀ i ∈ st'.resolved, timerOnly i := by
  have hnew : ∀ (v : JsVal) (info : Info), functionInfo env v = .ok info → timerOnly info := by
    intro v info hv
    obtain ⟨h1, h2⟩ := functionInfo_fresh env v info hv
    exact ⟨h1, Or.inl h2⟩
  simp only [addHandleFn] at h
  split at h
  · cases h; exact hall
  · cases ha : addInfo env st ((sock.lookup key).getD .undefined) with
    | error e => rw [ha] at h; cases h
    | ok p =>
      obtain ⟨st1, o⟩ := p
      rw [ha] at h
      dsimp only at h
      rw [hfd] at h
      simp only [Bool.false_eq_true, if_false] at h
      cases h
      exact addInfo_entries env timerOnly hnew st _ st' o hall ha

/-- With a falsy socket `fd`, the socket phase keeps every entry
`timerOnly`. -/
lemma processSocketKeys_timerOnly (env : Env) (sock : List (String × JsVal))
    (hfd : truthy ((sock.lookup "fd").getD .undefined) = false) :
    ∀ (keys : List String) (st st' : St),
      (∀ i ∈ st.resolved, timerOnly i) →
      processSocketKeys env sock st keys = .ok st' →
      ∀ i ∈ st'.resolved, timerOnly i := by
  intro keys
  induction keys with
  | nil =>
    intro st st' hall h
    cases h
    exact hall
  | cons k ks ih =>
    intro st st' hall h
    simp only [processSocketKeys] at h
    cases hk : addHandleFn env sock st k with
    | error e => rw [hk] at h; cases h
    | ok st1 =>
      rw [hk] at h
      exact ih st1 st' (addHandleFn_timerOnly env sock st k st1 hfd hall hk) h

/-- C10: when a handle's nested socket record has a falsy file descriptor
(in particular `fd = 0`), no resolved entry carries a file descriptor and no
entry's kind is refined by socket field name. -/
theorem falsy_fd_no_refinement :
    ∀ (env : Env) (hid : Nat) (handle : Node) (sock : List (String × JsVal)) (l : List Info),
      env.getNode hid = some handle →
      handle.handleRec = some sock →
      truthy ((sock.lookup "fd").getD .undefined) = false →
      resolveHandle env hid = .ok l →
      ∀ info ∈ l, info.fd = none ∧ info.type ≠ some "net connection" ∧
        info.type ≠ some "net client connection" ∧ info.type ≠ some "unknown" := by
  intro env hid handle sock l hget hrec hfd h
  simp only [resolveHandle, resolveHandleSt, resolveHandleStFuel, hget] at h
  cases hw : walk env (env.nodes.length + 1) {} handle.idleNext with
  | error e => rw [hw] at h; cases h
  | ok st1 =>
    rw [hw, hrec] at h
    dsimp only at h
    have hall1 : ∀ i ∈ st1.resolved, timerOnly i := by
      refine walk_timerOnly env (env.nodes.length + 1) {} handle.idleNext st1 ?_ hw
      intro i hi
      cases hi
    cases hps : processSocketKeys env sock st1 (sock.map Prod.fst) with
    | error e =>
      rw [processSocket] at h
      rw [hps] at h
      cases h
    | ok st2 =>
      rw [processSocket] at h
      rw [hps] at h
      dsimp only [Except.map] at h
      cases h
      have hall2 : ∀ i ∈ st2.resolved, timerOnly i :=
        processSocketKeys_timerOnly env sock hfd (sock.map Prod.fst) st1 st2 hall1 hps
      intro info hi
      obtain ⟨hfd0, hty⟩ := hall2 info hi
      refine ⟨hfd0, ?_, ?_, ?_⟩ <;>
        rcases hty with h | h | h <;> simp [h]

/-- C10 witness: a socket record with `fd = 0` and an `onconnection` callable
resolves to an entry without descriptor or kind refinement. -/
theorem falsy_fd_no_refinement_witness :
    resolveHandle envSockFdZero 0 = .ok [sockFdZeroInfo] ∧
    sockFdZeroInfo.fd = none ∧ sockFdZeroInfo.type ≠ some "net connection" ∧
      sockFdZeroInfo.type ≠ some "net client connection" ∧
      sockFdZeroInfo.type ≠ some "unknown" :=
  ⟨by decide,
   falsy_fd_no_refinement envSockFdZero 0 { handleRec := some sockFdZero } sockFdZero
     [sockFdZeroInfo] (by decide) rfl (by decide) (by decide)
     sockFdZeroInfo (List.mem_singleton.mpr rfl)⟩

end ActiveHandles
